import Mathlib

/-!
Verification of the ring-buffer reader thread (`reader_thread.c`) of the
goalsa repository.  The shared state, the producer loop body, the consumer
poll operation and the lifecycle start function are embedded as executable
Lean definitions; byte buffers are lists of naturals, offsets are naturals,
and the device read result is an explicit datatype (success with data,
transient overrun `-EPIPE`, fatal error).
-/

/-- Embeds `struct reader_thread_state_s`: the byte buffer, the two offsets,
the geometry fields and the three status flags.  The mutex, condition
variable, device handle and thread id are not data and are modelled by the
step relations below. -/
structure RTState where
  buf : List Nat
  head_offset : Nat
  tail_offset : Nat
  period_frames : Nat
  period_bytes : Nat
  buf_len : Nat
  stop : Bool
  overrun : Bool
  error : Bool
deriving Repr, DecidableEq

/-- Result of one blocking `snd_pcm_readi` call: a full period of bytes,
a transient overrun (`-EPIPE`), or any other fatal error (`rc < 0`). -/
inductive ReadResult where
  | ok (d : List Nat)
  | epipe
  | fatal
deriving Repr, DecidableEq

/-- Side effects of one producer iteration that are not state fields:
whether `snd_pcm_prepare` (device recovery) ran and whether the condition
variable was signalled. -/
structure LoopEffects where
  recovered : Bool
  signaled : Bool
deriving Repr, DecidableEq

/-- `memcpy`-style read of `len` bytes starting at byte offset `off`. -/
def readAt (b : List Nat) (off len : Nat) : List Nat :=
  (b.drop off).take len

/-- `memcpy`-style overwrite of `b` at byte offset `off` with `d`. -/
def writeAt (b : List Nat) (off : Nat) (d : List Nat) : List Nat :=
  b.take off ++ d ++ b.drop (off + d.length)

/-- The locked prefix of one producer iteration (`reader_thread_loop`,
lines 55-64): compute `next_offset = head_offset + period_bytes`, wrap it
to `0` when it reaches `buf_len`, and set `overrun` when the wrapped value
collides with `tail_offset`.  Returns the updated state and `next_offset`. -/
def prePublish (s : RTState) : RTState × Nat :=
  let next0 := s.head_offset + s.period_bytes
  let next := if next0 ≥ s.buf_len then 0 else next0
  (if next = s.tail_offset then { s with overrun := true } else s, next)

/-- The locked suffix of one producer iteration (`reader_thread_loop`,
lines 68-83): classify the read result.  `-EPIPE` sets `overrun` and runs
device recovery; any other negative result sets `error` and `stop`; a
successful read writes the period into the slot at `head_offset` and, when
no overrun is pending, signals the consumer if the buffer was empty and
publishes by advancing `head_offset` to `next`. -/
def classifyRead (s : RTState) (next : Nat) (r : ReadResult) : RTState × LoopEffects :=
  match r with
  | .epipe => ({ s with overrun := true }, ⟨true, false⟩)
  | .fatal => ({ s with error := true, stop := true }, ⟨false, false⟩)
  | .ok d =>
    let s1 : RTState := { s with buf := writeAt s.buf s.head_offset d }
    if s1.overrun then
      (s1, ⟨false, false⟩)
    else
      ({ s1 with head_offset := next }, ⟨false, s1.head_offset == s1.tail_offset⟩)

/-- One full iteration of the producer loop body, device read result `r`. -/
def loopIter (s : RTState) (r : ReadResult) : RTState × LoopEffects :=
  let p := prePublish s
  classifyRead p.1 p.2 r

/-- Outcome of one call to `reader_thread_poll`: either the caller blocks on
the condition variable, or the call returns code `code` leaving shared state
`s`, having copied `copied` into the caller's destination buffer. -/
inductive PollOutcome where
  | blocked
  | ret (code : Int) (s : RTState) (copied : Option (List Nat))
deriving Repr, DecidableEq

/-- Embeds `reader_thread_poll` (lines 92-123).  `bufNonNull` is whether the
caller passed a non-null destination.  A null destination returns `-1` at
once; otherwise the call blocks while the buffer is empty and neither
`overrun` nor `error` is set; then `error` yields `-1`, `overrun` yields `1`
after clearing the flag and resynchronising `tail_offset = head_offset`, and
otherwise one period is dequeued at `tail_offset` (advanced with wrap) and
its `period_bytes` bytes are copied out. -/
def reader_thread_poll (s : RTState) (bufNonNull : Bool) : PollOutcome :=
  if bufNonNull = false then
    .ret (-1) s none
  else if s.head_offset = s.tail_offset ∧ s.overrun = false ∧ s.error = false then
    .blocked
  else if s.error = true then
    .ret (-1) s none
  else if s.overrun = true then
    .ret 1 { s with overrun := false, tail_offset := s.head_offset } none
  else
    let src := s.tail_offset
    let t0 := s.tail_offset + s.period_bytes
    let t := if t0 ≥ s.buf_len then 0 else t0
    .ret 0 { s with tail_offset := t } (some (readAt s.buf src s.period_bytes))

/-- The state built by a successful `reader_thread_start`: the struct is
`memset` to zero (offsets and flags), the geometry fields are assigned, and
the backing buffer is the `malloc`-returned block `junk`, whose contents the
code does not initialise. -/
def startState (pb fr sc : Nat) (junk : List Nat) : RTState :=
  { buf := junk
    head_offset := 0
    tail_offset := 0
    period_frames := fr
    period_bytes := pb
    buf_len := pb * sc
    stop := false
    overrun := false
    error := false }

/-- Embeds `reader_thread_start` (lines 125-161).  The three booleans model
whether the state `malloc`, the buffer `malloc` and `pthread_create`
succeed; `junk` models the uninitialised contents of the `malloc`-returned
buffer.  Any failure returns no handle. -/
def reader_thread_start (stateAlloc bufAlloc threadSpawn : Bool)
    (junk : List Nat) (pb fr sc : Nat) : Option RTState :=
  if stateAlloc = false then none
  else if bufAlloc = false then none
  else if threadSpawn = false then none
  else some (startState pb fr sc junk)

/-- Publish a list of periods, one producer iteration per period, each read
succeeding with the given bytes. -/
def produceList (s : RTState) : List (List Nat) → RTState
  | [] => s
  | d :: ds => produceList (loopIter s (.ok d)).1 ds

/-- Perform `n` consecutive polls (non-null destination), collecting the
return code and the copied bytes of each.  A poll that would block is
recorded as the sentinel `(-2, none)` and ends the run. -/
def drainN (s : RTState) : Nat → List (Int × Option (List Nat))
  | 0 => []
  | n + 1 =>
    match reader_thread_poll s true with
    | .blocked => [(-2, none)]
    | .ret c s1 o => (c, o) :: drainN s1 n

/-- Number of unread periods currently queued between `tail_offset` and
`head_offset`. -/
def queuedPeriods (s : RTState) : Nat :=
  ((s.head_offset + s.buf_len - s.tail_offset) % s.buf_len) / s.period_bytes

/-- A convenient description of the states arising while producing into and
draining from a freshly started ring: offsets `h` and `t`, all flags
clear. -/
def midS (pb fr sc : Nat) (b : List Nat) (h t : Nat) : RTState :=
  { buf := b
    head_offset := h
    tail_offset := t
    period_frames := fr
    period_bytes := pb
    buf_len := pb * sc
    stop := false
    overrun := false
    error := false }

/-- The states of the shared ring reachable from a successful start by
producer iterations (only while `stop` is clear, successful reads delivering
exactly one period of bytes), completed polls, and `reader_thread_stop`
setting the stop flag. -/
inductive Reach (pb fr sc : Nat) : RTState → Prop where
  | init (junk : List Nat) (hlen : junk.length = pb * sc) :
      Reach pb fr sc (startState pb fr sc junk)
  | loop (s : RTState) (r : ReadResult) (hs : Reach pb fr sc s)
      (hstop : s.stop = false) (hok : ∀ d, r = .ok d → d.length = pb) :
      Reach pb fr sc (loopIter s r).1
  | poll (s s1 : RTState) (c : Int) (o : Option (List Nat))
      (hs : Reach pb fr sc s)
      (h : reader_thread_poll s true = .ret c s1 o) :
      Reach pb fr sc s1
  | stopcall (s : RTState) (hs : Reach pb fr sc s) :
      Reach pb fr sc { s with stop := true }

/-- Structural facts every reachable shared state satisfies: the geometry
fields are the construction parameters, the buffer keeps its allocated
length, both offsets are period-aligned and in range, and `error` implies
`stop`. -/
def goodState (pb sc : Nat) (s : RTState) : Prop :=
  s.period_bytes = pb ∧ s.buf_len = pb * sc ∧ s.buf.length = pb * sc ∧
  s.head_offset < pb * sc ∧ s.tail_offset < pb * sc ∧
  pb ∣ s.head_offset ∧ pb ∣ s.tail_offset ∧
  (s.error = true → s.stop = true)

/-! Basic lemmas about the byte-level helpers. -/

lemma writeAt_length (b d : List Nat) (off : Nat)
    (h : off + d.length ≤ b.length) : (writeAt b off d).length = b.length := by
  unfold writeAt
  simp only [List.length_append, List.length_take, List.length_drop]
  omega

lemma writeAt_append (pre suf d : List Nat) :
    writeAt (pre ++ suf) pre.length d = pre ++ d ++ suf.drop d.length := by
  unfold writeAt
  rw [List.take_left, List.drop_append]

lemma readAt_append (pre rest : List Nat) (n : Nat) :
    readAt (pre ++ rest) pre.length n = rest.take n := by
  unfold readAt
  rw [List.drop_left]

/-! Claims about single steps of the producer and the consumer. -/

/-- C6: a poll with a null destination buffer returns `-1` immediately,
never blocks, and leaves the shared ring-buffer state (offsets, flags,
buffer) exactly as it was. -/
theorem C6_poll_null_dest (s : RTState) :
    reader_thread_poll s false = .ret (-1) s none ∧
    reader_thread_poll s false ≠ .blocked := by
  refine ⟨rfl, ?_⟩
  intro h
  simp [reader_thread_poll] at h

/-- The locked prefix of an iteration only ever sets the `overrun` flag. -/
lemma prePublish_fst_eq (s : RTState) :
    (prePublish s).1 = s ∨ (prePublish s).1 = { s with overrun := true } := by
  unfold prePublish
  dsimp only
  split
  all_goals split
  · exact Or.inr rfl
  · exact Or.inl rfl
  · exact Or.inr rfl
  · exact Or.inl rfl

/-- The `next_offset` computed by the locked prefix of an iteration. -/
lemma prePublish_snd (s : RTState) :
    (prePublish s).2 = if s.head_offset + s.period_bytes ≥ s.buf_len then 0
                       else s.head_offset + s.period_bytes := rfl

/-- C7: on a transient device overrun (`-EPIPE`) the producer sets
`overrun`, invokes device recovery (`snd_pcm_prepare`), and leaves
`head_offset` (and everything else) unchanged, so the next iteration
re-attempts the same slot: the next iteration's `next_offset` is the same
as this one's. -/
theorem C7_epipe_retry_in_place (s : RTState) :
    (loopIter s .epipe).1.overrun = true ∧
    (loopIter s .epipe).2.recovered = true ∧
    (loopIter s .epipe).1.head_offset = s.head_offset ∧
    (loopIter s .epipe).1.tail_offset = s.tail_offset ∧
    (loopIter s .epipe).1.buf = s.buf ∧
    (loopIter s .epipe).1.error = s.error ∧
    (loopIter s .epipe).1.stop = s.stop ∧
    (prePublish (loopIter s .epipe).1).2 = (prePublish s).2 := by
  rcases prePublish_fst_eq s with h | h <;>
    simp [loopIter, classifyRead, h, prePublish_snd]

/-- C3: the producer computes `next_offset = head_offset + period_bytes`,
wrapped to `0` when it reaches `buf_len`; when that collides with
`tail_offset` it sets `overrun` under the lock, and after the device read
completes it does not advance `head_offset`, whatever the read result: the
incoming period is the one dropped. -/
theorem C3_overrun_marks_incoming (s : RTState) (r : ReadResult)
    (hcol : (if s.head_offset + s.period_bytes ≥ s.buf_len then 0
             else s.head_offset + s.period_bytes) = s.tail_offset) :
    (prePublish s).2 = (if s.head_offset + s.period_bytes ≥ s.buf_len then 0
                        else s.head_offset + s.period_bytes) ∧
    (prePublish s).1.overrun = true ∧
    (loopIter s r).1.overrun = true ∧
    (loopIter s r).1.head_offset = s.head_offset := by
  have h1 : prePublish s =
      ({ s with overrun := true },
        if s.head_offset + s.period_bytes ≥ s.buf_len then 0
        else s.head_offset + s.period_bytes) := by
    unfold prePublish
    dsimp only
    rw [if_pos hcol]
  refine ⟨by rw [h1], by rw [h1], ?_, ?_⟩ <;>
    · unfold loopIter
      rw [h1]
      cases r <;> simp [classifyRead]

/-- Witness for C3 at `period_bytes = 1`, `slot_count = 2`, `head = 1`,
`tail = 0`: the wrapped next offset is `0 = tail`, so the iteration marks
`overrun` and keeps `head_offset` at `1`. -/
theorem C3_overrun_marks_incoming_witness :
    ((if (midS 1 1 2 [0, 0] 1 0).head_offset + (midS 1 1 2 [0, 0] 1 0).period_bytes ≥
          (midS 1 1 2 [0, 0] 1 0).buf_len then 0
      else (midS 1 1 2 [0, 0] 1 0).head_offset + (midS 1 1 2 [0, 0] 1 0).period_bytes)
        = (midS 1 1 2 [0, 0] 1 0).tail_offset) ∧
    (loopIter (midS 1 1 2 [0, 0] 1 0) (.ok [9])).1.overrun = true ∧
    (loopIter (midS 1 1 2 [0, 0] 1 0) (.ok [9])).1.head_offset
      = (midS 1 1 2 [0, 0] 1 0).head_offset :=
  ⟨by decide,
   (C3_overrun_marks_incoming (midS 1 1 2 [0, 0] 1 0) (.ok [9]) (by decide)).2.2.1,
   (C3_overrun_marks_incoming (midS 1 1 2 [0, 0] 1 0) (.ok [9]) (by decide)).2.2.2⟩

/-- C4: a poll arriving with `overrun` set and `error` clear returns
Overrun (`1`), copies nothing, clears the flag and resynchronises
`tail_offset = head_offset`, discarding every buffered period; the
resulting state is empty, so an immediate next poll blocks rather than
replaying stale data. -/
theorem C4_overrun_poll_resync (s : RTState)
    (hov : s.overrun = true) (herr : s.error = false) :
    reader_thread_poll s true =
      .ret 1 { s with overrun := false, tail_offset := s.head_offset } none ∧
    queuedPeriods { s with overrun := false, tail_offset := s.head_offset } = 0 ∧
    reader_thread_poll { s with overrun := false, tail_offset := s.head_offset } true
      = .blocked := by
  refine ⟨?_, ?_, ?_⟩
  · unfold reader_thread_poll
    simp [hov, herr]
  · unfold queuedPeriods
    simp
  · unfold reader_thread_poll
    simp [herr]

/-- Witness for C4: a one-slot-queued state with `overrun` set; poll
returns `1`, discards the queue, and the next poll blocks. -/
theorem C4_overrun_poll_resync_witness :
    reader_thread_poll { midS 1 1 2 [0, 0] 1 0 with overrun := true } true =
      .ret 1 { { midS 1 1 2 [0, 0] 1 0 with overrun := true } with
                 overrun := false,
                 tail_offset := { midS 1 1 2 [0, 0] 1 0 with overrun := true }.head_offset }
        none ∧
    queuedPeriods { { midS 1 1 2 [0, 0] 1 0 with overrun := true } with
                      overrun := false,
                      tail_offset := { midS 1 1 2 [0, 0] 1 0 with
                                         overrun := true }.head_offset } = 0 ∧
    reader_thread_poll { { midS 1 1 2 [0, 0] 1 0 with overrun := true } with
                           overrun := false,
                           tail_offset := { midS 1 1 2 [0, 0] 1 0 with
                                              overrun := true }.head_offset } true
      = .blocked :=
  C4_overrun_poll_resync { midS 1 1 2 [0, 0] 1 0 with overrun := true } rfl rfl

/-! FIFO round-trip: producing `N` periods into a fresh ring and draining
them with `N` polls.  `midS pb fr sc b h t` describes the intermediate
states: flags clear, offsets `h` and `t`, buffer `b`. -/

/-- One successful producer iteration from a mid-production state: the slot
after the `P` prefix is overwritten with `d` and `head_offset` advances by
one period, with no wrap and no overrun while fewer than `slot_count`
slots are in use. -/
lemma loopIter_ok_mid (pb fr sc k : Nat) (P suf d : List Nat) (hpb : 0 < pb)
    (hP : P.length = k * pb) (hd : d.length = pb) (hk : k + 1 < sc) :
    (loopIter (midS pb fr sc (P ++ suf) (k * pb) 0) (.ok d)).1
      = midS pb fr sc (P ++ d ++ suf.drop pb) ((k + 1) * pb) 0 := by
  have h1 : ¬ (k * pb + pb ≥ pb * sc) := by
    have h2 : (k + 1) * pb < sc * pb := mul_lt_mul_of_pos_right hk hpb
    have h3 : (k + 1) * pb = k * pb + pb := Nat.succ_mul k pb
    have h4 : pb * sc = sc * pb := Nat.mul_comm pb sc
    omega
  have hnz : ¬ (k * pb + pb = 0) := by omega
  have hbuf : writeAt (P ++ suf) (k * pb) d = P ++ d ++ suf.drop pb := by
    rw [← hP, writeAt_append, hd]
  unfold loopIter prePublish classifyRead midS
  dsimp only
  rw [if_neg h1, if_neg hnz]
  simp [hbuf, Nat.succ_mul]

/-- Producing a list of periods from a mid-production state writes them
contiguously after the `P` prefix and advances `head_offset` by one period
each, while the ring has room. -/
lemma produce_mid (pb fr sc : Nat) (hpb : 0 < pb) (ds : List (List Nat)) :
    ∀ (k : Nat) (P suf : List Nat),
      (∀ d ∈ ds, d.length = pb) → P.length = k * pb → k + ds.length < sc →
      produceList (midS pb fr sc (P ++ suf) (k * pb) 0) ds
        = midS pb fr sc (P ++ ds.flatten ++ suf.drop (ds.length * pb))
            ((k + ds.length) * pb) 0 := by
  induction ds with
  | nil =>
    intro k P suf _ hP _
    simp [produceList]
  | cons d ds ih =>
    intro k P suf hlen hP hcap
    have hd : d.length = pb := hlen d (List.mem_cons_self d ds)
    have hcap2 : k + 1 < sc := by
      simp only [List.length_cons] at hcap
      omega
    rw [produceList, loopIter_ok_mid pb fr sc k P suf d hpb hP hd hcap2]
    have hP2 : (P ++ d).length = (k + 1) * pb := by
      rw [List.length_append, hP, hd, Nat.succ_mul]
    have hcap3 : (k + 1) + ds.length < sc := by
      simp only [List.length_cons] at hcap
      omega
    rw [ih (k + 1) (P ++ d) (suf.drop pb)
      (fun x hx => hlen x (List.mem_cons_of_mem d hx)) hP2 hcap3]
    have hdrop : (suf.drop pb).drop (ds.length * pb) = suf.drop ((d :: ds).length * pb) := by
      rw [List.drop_drop]
      congr 1
      simp [List.length_cons, Nat.succ_mul]
      omega
    have hhead : (k + 1 + ds.length) * pb = (k + (d :: ds).length) * pb := by
      simp only [List.length_cons]
      ring
    rw [hdrop, hhead]
    simp [List.append_assoc]

/-- Draining a mid-drain state: with `j` periods already consumed out of
`N` produced and no wrap pending, each successive poll returns Success and
the next undelivered period, in order. -/
lemma drain_mid (pb fr sc : Nat) (hpb : 0 < pb) (rest : List (List Nat)) :
    ∀ (j N : Nat) (P G : List Nat),
      (∀ d ∈ rest, d.length = pb) → P.length = j * pb →
      j + rest.length = N → N < sc →
      drainN (midS pb fr sc (P ++ rest.flatten ++ G) (N * pb) (j * pb)) rest.length
        = rest.map (fun d => ((0 : Int), some d)) := by
  induction rest with
  | nil =>
    intro j N P G _ _ _ _
    simp [drainN]
  | cons d rest ih =>
    intro j N P G hlen hP hjN hN
    have hd : d.length = pb := hlen d (List.mem_cons_self d rest)
    have hjltN : j < N := by
      simp only [List.length_cons] at hjN
      omega
    have hne : ¬ (N * pb = j * pb) := by
      intro he
      exact absurd (Nat.eq_of_mul_eq_mul_right hpb he) (by omega)
    have hwrap : ¬ (j * pb + pb ≥ pb * sc) := by
      have h2 : (j + 1) * pb ≤ sc * pb :=
        Nat.mul_le_mul_right pb (by omega)
      have h3 : (j + 1) * pb = j * pb + pb := Nat.succ_mul j pb
      have h4 : pb * sc = sc * pb := Nat.mul_comm pb sc
      -- j + 1 ≤ N < sc gives strictness
      have h5 : (j + 1) * pb < sc * pb := mul_lt_mul_of_pos_right (by omega) hpb
      omega
    have hread : readAt (P ++ (d :: rest).flatten ++ G) (j * pb) pb = d := by
      simp only [List.flatten_cons, List.append_assoc]
      rw [← hP, readAt_append, ← hd, List.take_left]
    have hpoll :
        reader_thread_poll (midS pb fr sc (P ++ (d :: rest).flatten ++ G) (N * pb) (j * pb)) true
          = .ret 0 (midS pb fr sc (P ++ (d :: rest).flatten ++ G) (N * pb) (j * pb + pb))
              (some d) := by
      unfold reader_thread_poll midS
      dsimp only
      rw [if_neg (by simp : ¬ (true = false))]
      rw [if_neg (fun hc => hne hc.1)]
      rw [if_neg (by simp : ¬ ((false : Bool) = true))]
      rw [if_neg (by simp : ¬ ((false : Bool) = true))]
      rw [if_neg hwrap]
      rw [show readAt (P ++ (d :: rest).flatten ++ G) (j * pb) pb = d from hread]
    rw [List.length_cons]
    rw [drainN, hpoll]
    have hstate :
        midS pb fr sc (P ++ (d :: rest).flatten ++ G) (N * pb) (j * pb + pb)
          = midS pb fr sc ((P ++ d) ++ rest.flatten ++ G) (N * pb) ((j + 1) * pb) := by
      rw [Nat.succ_mul]
      simp [midS, List.append_assoc]
    rw [hstate]
    dsimp only
    rw [ih (j + 1) N (P ++ d) G (fun x hx => hlen x (List.mem_cons_of_mem d hx))
      (by rw [List.length_append, hP, hd, Nat.succ_mul])
      (by simp only [List.length_cons] at hjN; omega) hN]
    simp

/-- C1: from a fresh start, producing `N < slot_count − 1` periods and then
performing `N` consecutive polls returns Success every time and delivers the
periods byte-for-byte in FIFO order. -/
theorem C1_fifo_roundtrip (pb fr sc : Nat) (ds : List (List Nat)) (junk : List Nat)
    (hpb : 0 < pb) (hsc : 2 ≤ sc) (hN : ds.length < sc - 1)
    (hlen : ∀ d ∈ ds, d.length = pb) (hjunk : junk.length = pb * sc) :
    drainN (produceList (startState pb fr sc junk) ds) ds.length
      = ds.map (fun d => ((0 : Int), some d)) := by
  have hstart : startState pb fr sc junk = midS pb fr sc ([] ++ junk) (0 * pb) 0 := by
    simp [startState, midS]
  rw [hstart, produce_mid pb fr sc hpb ds 0 [] junk hlen (by simp) (by omega)]
  have hmain := drain_mid pb fr sc hpb ds 0 ds.length []
    (junk.drop (ds.length * pb)) hlen (by simp) (by omega) (by omega)
  simp only [List.nil_append, Nat.zero_add, Nat.zero_mul] at hmain ⊢
  exact hmain

/-- Witness for C1: `slot_count = 4`, `period_bytes = 1`, two periods `[3]`
and `[4]` produced then drained in order. -/
theorem C1_fifo_roundtrip_witness :
    drainN (produceList (startState 1 1 4 [0, 0, 0, 0]) [[3], [4]]) 2
      = [((0 : Int), some [3]), ((0 : Int), some [4])] :=
  C1_fifo_roundtrip 1 1 4 [[3], [4]] [0, 0, 0, 0] (by decide) (by decide) (by decide)
    (by decide) (by decide)

/-! Invariants of every reachable shared state. -/

/-- A period-aligned in-range offset leaves room for one more period. -/
lemma aligned_add_le (pb n h : Nat) (hpb : 0 < pb) (hdv : pb ∣ h)
    (hlt : h < pb * n) : h + pb ≤ pb * n := by
  obtain ⟨m, rfl⟩ := hdv
  have hm : m < n := Nat.lt_of_mul_lt_mul_left hlt
  have h2 : pb * (m + 1) ≤ pb * n := Nat.mul_le_mul_left pb hm
  have h3 : pb * (m + 1) = pb * m + pb := by ring
  omega

/-- Every reachable state is good: geometry fields intact, offsets aligned
and in range, buffer length preserved, and `error` implies `stop`. -/
lemma reach_good (pb fr sc : Nat) (hpb : 0 < pb) (hsc : 0 < sc)
    (s : RTState) (hre : Reach pb fr sc s) : goodState pb sc s := by
  induction hre with
  | init junk hlen =>
    refine ⟨rfl, rfl, hlen, Nat.mul_pos hpb hsc, Nat.mul_pos hpb hsc,
      dvd_zero pb, dvd_zero pb, ?_⟩
    intro h
    cases h
  | loop s r hs hstop hok ih =>
    obtain ⟨h1, h2, h3, h4, h5, h6, h7, h8⟩ := ih
    have hnext : (prePublish s).2 < pb * sc ∧ pb ∣ (prePublish s).2 := by
      rw [prePublish_snd]
      split
      · exact ⟨Nat.mul_pos hpb hsc, dvd_zero pb⟩
      · next hcond =>
        rw [h1, h2] at hcond
        constructor
        · omega
        · exact dvd_add h6 (h1 ▸ dvd_refl s.period_bytes)
    rcases prePublish_fst_eq s with hp | hp <;>
      cases r with
      | epipe =>
        simp only [loopIter, classifyRead, hp]
        exact ⟨h1, h2, h3, h4, h5, h6, h7, h8⟩
      | fatal =>
        simp only [loopIter, classifyRead, hp]
        exact ⟨h1, h2, h3, h4, h5, h6, h7, fun _ => rfl⟩
      | ok d =>
        have hd : d.length = pb := hok d rfl
        have hwl : (writeAt s.buf s.head_offset d).length = pb * sc := by
          rw [writeAt_length]
          · exact h3
          · rw [h3, hd]
            exact aligned_add_le pb sc s.head_offset hpb h6 h4
        simp only [loopIter, classifyRead, hp]
        split
        · exact ⟨h1, h2, hwl, h4, h5, h6, h7, h8⟩
        · exact ⟨h1, h2, hwl, hnext.1, h5, hnext.2, h7, h8⟩
  | poll s s1 c o hs h ih =>
    obtain ⟨h1, h2, h3, h4, h5, h6, h7, h8⟩ := ih
    unfold reader_thread_poll at h
    rw [if_neg (by simp : ¬ (true = false))] at h
    by_cases hg : s.head_offset = s.tail_offset ∧ s.overrun = false ∧ s.error = false
    · rw [if_pos hg] at h
      cases h
    · rw [if_neg hg] at h
      by_cases he : s.error = true
      · rw [if_pos he] at h
        injection h with hc hs1 ho
        subst hs1
        exact ⟨h1, h2, h3, h4, h5, h6, h7, h8⟩
      · rw [if_neg he] at h
        by_cases hov : s.overrun = true
        · rw [if_pos hov] at h
          injection h with hc hs1 ho
          subst hs1
          exact ⟨h1, h2, h3, h4, h4, h6, h6, h8⟩
        · rw [if_neg hov] at h
          injection h with hc hs1 ho
          subst hs1
          refine ⟨h1, h2, h3, h4, ?_, h6, ?_, h8⟩ <;> dsimp only <;> split
          · exact Nat.mul_pos hpb hsc
          · next hcond =>
            rw [h1, h2] at hcond
            omega
          · exact dvd_zero pb
          · exact dvd_add h7 (h1 ▸ dvd_refl s.period_bytes)
  | stopcall s hs ih =>
    obtain ⟨h1, h2, h3, h4, h5, h6, h7, h8⟩ := ih
    exact ⟨h1, h2, h3, h4, h5, h6, h7, fun _ => rfl⟩

/-- If the locked prefix did not set `overrun`, the computed `next_offset`
does not collide with `tail_offset`. -/
lemma prePublish_overrun_false (s : RTState)
    (h : (prePublish s).1.overrun = false) : (prePublish s).2 ≠ s.tail_offset := by
  unfold prePublish at h ⊢
  dsimp only at h ⊢
  intro hc
  rw [if_pos hc] at h
  simp at h

/-- The locked prefix never moves `head_offset`. -/
lemma prePublish_head (s : RTState) :
    (prePublish s).1.head_offset = s.head_offset := by
  rcases prePublish_fst_eq s with hp | hp <;> rw [hp]

/-- The locked prefix never moves `tail_offset`. -/
lemma prePublish_tail (s : RTState) :
    (prePublish s).1.tail_offset = s.tail_offset := by
  rcases prePublish_fst_eq s with hp | hp <;> rw [hp]

/-- C2: in every reachable state, `head_offset == tail_offset` holds exactly
when no periods are queued; at most `slot_count − 1` periods are ever queued;
and no producer step advances `head_offset` onto `tail_offset` (a consumer
poll never changes `head_offset` at all). -/
theorem C2_ring_invariants (pb fr sc : Nat) (s : RTState)
    (hpb : 0 < pb) (hsc : 2 ≤ sc) (hre : Reach pb fr sc s) :
    (s.head_offset = s.tail_offset ↔ queuedPeriods s = 0) ∧
    queuedPeriods s ≤ sc - 1 ∧
    (∀ r : ReadResult, (loopIter s r).1.head_offset ≠ s.head_offset →
      (loopIter s r).1.head_offset ≠ (loopIter s r).1.tail_offset) ∧
    (∀ (c : Int) (s1 : RTState) (o : Option (List Nat)),
      reader_thread_poll s true = .ret c s1 o → s1.head_offset = s.head_offset) := by
  obtain ⟨h1, h2, h3, h4, h5, h6, h7, h8⟩ :=
    reach_good pb fr sc hpb (by omega) s hre
  have hL : 0 < pb * sc := Nat.mul_pos hpb (by omega)
  refine ⟨⟨?_, ?_⟩, ?_, ?_, ?_⟩
  · intro he
    unfold queuedPeriods
    rw [he, h2]
    have hx : s.tail_offset + pb * sc - s.tail_offset = pb * sc := by omega
    rw [hx, Nat.mod_self]
    simp
  · intro hq
    by_contra hne
    unfold queuedPeriods at hq
    rw [h1, h2] at hq
    have hxpos : 0 < s.head_offset + pb * sc - s.tail_offset := by omega
    have hxlt : s.head_offset + pb * sc - s.tail_offset < 2 * (pb * sc) := by omega
    have hdvd : pb ∣ s.head_offset + pb * sc - s.tail_offset :=
      Nat.dvd_sub' (dvd_add h6 ⟨sc, rfl⟩) h7
    have hdvdmod : pb ∣ (s.head_offset + pb * sc - s.tail_offset) % (pb * sc) :=
      (Nat.dvd_mod_iff ⟨sc, rfl⟩).2 hdvd
    have hmodne : (s.head_offset + pb * sc - s.tail_offset) % (pb * sc) ≠ 0 := by
      intro h0
      obtain ⟨q, hq2⟩ := Nat.dvd_of_mod_eq_zero h0
      rcases q with _ | _ | q
      · omega
      · have : s.head_offset = s.tail_offset := by omega
        exact hne this
      · have h22 : (pb * sc) * 2 ≤ (pb * sc) * (q + 1 + 1) :=
          Nat.mul_le_mul_left (pb * sc) (by omega)
        omega
    have hge : pb ≤ (s.head_offset + pb * sc - s.tail_offset) % (pb * sc) :=
      Nat.le_of_dvd (Nat.pos_of_ne_zero hmodne) hdvdmod
    have : 1 ≤ (s.head_offset + pb * sc - s.tail_offset) % (pb * sc) / pb :=
      (Nat.one_le_div_iff hpb).2 hge
    omega
  · unfold queuedPeriods
    rw [h1, h2]
    have hmlt : (s.head_offset + pb * sc - s.tail_offset) % (pb * sc) < pb * sc :=
      Nat.mod_lt _ hL
    have hdiv : (s.head_offset + pb * sc - s.tail_offset) % (pb * sc) / pb < sc := by
      rw [Nat.div_lt_iff_lt_mul hpb]
      have : sc * pb = pb * sc := Nat.mul_comm sc pb
      omega
    omega
  · intro r hne
    cases r with
    | epipe =>
      exfalso
      apply hne
      rcases prePublish_fst_eq s with hp | hp <;> simp [loopIter, classifyRead, hp]
    | fatal =>
      exfalso
      apply hne
      rcases prePublish_fst_eq s with hp | hp <;> simp [loopIter, classifyRead, hp]
    | ok d =>
      by_cases ho : (prePublish s).1.overrun = true
      · exfalso
        apply hne
        have : (loopIter s (.ok d)).1.head_offset = (prePublish s).1.head_offset := by
          simp [loopIter, classifyRead, ho]
        rw [this, prePublish_head]
      · have ho2 : (prePublish s).1.overrun = false := by
          revert ho
          cases (prePublish s).1.overrun <;> simp
        have hnn : (prePublish s).2 ≠ s.tail_offset := prePublish_overrun_false s ho2
        have hh : (loopIter s (.ok d)).1.head_offset = (prePublish s).2 := by
          simp [loopIter, classifyRead, ho2]
        have ht : (loopIter s (.ok d)).1.tail_offset = s.tail_offset := by
          simp [loopIter, classifyRead, ho2, prePublish_tail]
        rw [hh, ht]
        exact hnn
  · intro c s1 o h
    unfold reader_thread_poll at h
    rw [if_neg (by simp : ¬ (true = false))] at h
    by_cases hg : s.head_offset = s.tail_offset ∧ s.overrun = false ∧ s.error = false
    · rw [if_pos hg] at h
      cases h
    · rw [if_neg hg] at h
      by_cases he : s.error = true
      · rw [if_pos he] at h
        injection h with hc hs1 ho
        rw [← hs1]
      · rw [if_neg he] at h
        by_cases hov : s.overrun = true
        · rw [if_pos hov] at h
          injection h with hc hs1 ho
          rw [← hs1]
        · rw [if_neg hov] at h
          injection h with hc hs1 ho
          rw [← hs1]

/-- Witness for C2 at the freshly started state: empty buffer, zero queued
periods, within capacity. -/
theorem C2_ring_invariants_witness :
    queuedPeriods (startState 1 1 2 [0, 0]) = 0 ∧
    queuedPeriods (startState 1 1 2 [0, 0]) ≤ 2 - 1 :=
  ⟨(C2_ring_invariants 1 1 2 (startState 1 1 2 [0, 0]) (by decide) (by decide)
      (Reach.init [0, 0] rfl)).1.mp rfl,
   (C2_ring_invariants 1 1 2 (startState 1 1 2 [0, 0]) (by decide) (by decide)
      (Reach.init [0, 0] rfl)).2.1⟩

/-- C5: `error` is terminal.  In any reachable state with `error` set,
`stop` is set too (so the producer loop, which runs only while `stop` is
clear, performs no further iterations and no offset advancement); a poll
never enters the condition wait while `error` is set and returns Error
(`-1`) leaving the state unchanged.  Moreover a fatal read result always
sets `error` and `stop` together and never moves either offset. -/
theorem C5_error_terminal (pb fr sc : Nat) (s : RTState)
    (hpb : 0 < pb) (hsc : 0 < sc) (hre : Reach pb fr sc s)
    (herr : s.error = true) :
    s.stop = true ∧
    (∀ b, reader_thread_poll s b ≠ .blocked) ∧
    reader_thread_poll s true = .ret (-1) s none ∧
    (∀ t : RTState, (loopIter t .fatal).1.error = true ∧
      (loopIter t .fatal).1.stop = true ∧
      (loopIter t .fatal).1.head_offset = t.head_offset ∧
      (loopIter t .fatal).1.tail_offset = t.tail_offset) := by
  obtain ⟨h1, h2, h3, h4, h5, h6, h7, h8⟩ := reach_good pb fr sc hpb hsc s hre
  have hng : ¬ (s.head_offset = s.tail_offset ∧ s.overrun = false ∧ s.error = false) := by
    intro hg
    rw [herr] at hg
    exact absurd hg.2.2 (by simp)
  refine ⟨h8 herr, ?_, ?_, ?_⟩
  · intro b hblk
    unfold reader_thread_poll at hblk
    by_cases hb : b = false
    · rw [if_pos hb] at hblk
      cases hblk
    · rw [if_neg hb, if_neg hng, if_pos herr] at hblk
      cases hblk
  · unfold reader_thread_poll
    rw [if_neg (by simp : ¬ (true = false)), if_neg hng, if_pos herr]
  · intro t
    rcases prePublish_fst_eq t with hp | hp <;>
      simp [loopIter, classifyRead, hp]

/-- Witness for C5: one fatal read from a fresh start yields a reachable
state with `error` set; the theorem then gives `stop` and the Error-returning
non-blocking poll. -/
theorem C5_error_terminal_witness :
    (loopIter (startState 1 1 2 [0, 0]) ReadResult.fatal).1.stop = true ∧
    reader_thread_poll (loopIter (startState 1 1 2 [0, 0]) ReadResult.fatal).1 true
      = .ret (-1) (loopIter (startState 1 1 2 [0, 0]) ReadResult.fatal).1 none :=
  ⟨(C5_error_terminal 1 1 2 (loopIter (startState 1 1 2 [0, 0]) ReadResult.fatal).1
      (by decide) (by decide)
      (Reach.loop (startState 1 1 2 [0, 0]) ReadResult.fatal (Reach.init [0, 0] rfl) rfl
        (fun d hd => by cases hd)) rfl).1,
   (C5_error_terminal 1 1 2 (loopIter (startState 1 1 2 [0, 0]) ReadResult.fatal).1
      (by decide) (by decide)
      (Reach.loop (startState 1 1 2 [0, 0]) ReadResult.fatal (Reach.init [0, 0] rfl) rfl
        (fun d hd => by cases hd)) rfl).2.2.1⟩

/-- C10: a poll that returns Overrun or Error copies nothing into the
caller's destination; only the Success path copies, and it copies exactly
`period_bytes` bytes (the period at the pre-call `tail_offset`). -/
theorem C10_poll_frame (pb fr sc : Nat) (s : RTState)
    (hpb : 0 < pb) (hsc : 0 < sc) (hre : Reach pb fr sc s)
    (b : Bool) (c : Int) (s1 : RTState) (o : Option (List Nat))
    (h : reader_thread_poll s b = .ret c s1 o) :
    (c ≠ 0 → o = none) ∧
    (c = 0 → o = some (readAt s.buf s.tail_offset s.period_bytes) ∧
      (readAt s.buf s.tail_offset s.period_bytes).length = s.period_bytes) := by
  obtain ⟨h1, h2, h3, h4, h5, h6, h7, _⟩ := reach_good pb fr sc hpb hsc s hre
  have hlen : (readAt s.buf s.tail_offset s.period_bytes).length = s.period_bytes := by
    unfold readAt
    rw [List.length_take, List.length_drop, h3, h1]
    have := aligned_add_le pb sc s.tail_offset hpb h7 h5
    omega
  unfold reader_thread_poll at h
  by_cases hb : b = false
  · rw [if_pos hb] at h
    injection h with hc hs1 ho
    exact ⟨fun _ => ho.symm, fun h0 => absurd (hc.trans h0) (by omega)⟩
  · rw [if_neg hb] at h
    by_cases hg : s.head_offset = s.tail_offset ∧ s.overrun = false ∧ s.error = false
    · rw [if_pos hg] at h
      cases h
    · rw [if_neg hg] at h
      by_cases he : s.error = true
      · rw [if_pos he] at h
        injection h with hc hs1 ho
        exact ⟨fun _ => ho.symm, fun h0 => absurd (hc.trans h0) (by omega)⟩
      · rw [if_neg he] at h
        by_cases hov : s.overrun = true
        · rw [if_pos hov] at h
          injection h with hc hs1 ho
          exact ⟨fun _ => ho.symm, fun h0 => absurd (hc.trans h0) (by omega)⟩
        · rw [if_neg hov] at h
          injection h with hc hs1 ho
          exact ⟨fun hne => absurd hc.symm hne, fun _ => ⟨ho.symm, hlen⟩⟩

/-- Witness for C10: after producing one period `[9]` into a fresh
two-slot ring, a poll returns Success with exactly that one period. -/
theorem C10_poll_frame_witness :
    (((0 : Int) ≠ 0 → (some [9] : Option (List Nat)) = none) ∧
     ((0 : Int) = 0 →
        (some [9] : Option (List Nat)) =
          some (readAt (loopIter (startState 1 1 2 [5, 6]) (ReadResult.ok [9])).1.buf
            (loopIter (startState 1 1 2 [5, 6]) (ReadResult.ok [9])).1.tail_offset
            (loopIter (startState 1 1 2 [5, 6]) (ReadResult.ok [9])).1.period_bytes) ∧
        (readAt (loopIter (startState 1 1 2 [5, 6]) (ReadResult.ok [9])).1.buf
            (loopIter (startState 1 1 2 [5, 6]) (ReadResult.ok [9])).1.tail_offset
            (loopIter (startState 1 1 2 [5, 6]) (ReadResult.ok [9])).1.period_bytes).length
          = (loopIter (startState 1 1 2 [5, 6]) (ReadResult.ok [9])).1.period_bytes)) :=
  C10_poll_frame 1 1 2 (loopIter (startState 1 1 2 [5, 6]) (ReadResult.ok [9])).1
    (by decide) (by decide)
    (Reach.loop (startState 1 1 2 [5, 6]) (ReadResult.ok [9]) (Reach.init [5, 6] rfl) rfl
      (fun d hd => by cases hd; rfl))
    true 0 _ (some [9]) rfl

/-! Lock discipline of the producer.  The loop body is refined into control
points so that mutex possession at each point is explicit: the producer
holds the lock at the loop head (bookkeeping), releases it before the
blocking `snd_pcm_readi`, and re-acquires it only for the classification. -/

/-- Control point of the producer thread inside `reader_thread_loop`. -/
inductive Phase where
  | loopHead
  | reading (ptrOff next : Nat)
  | classifying (r : ReadResult) (next : Nat)
  | exited
deriving Repr, DecidableEq

/-- Producer-thread configuration: the shared state it observes, whether
the producer currently holds the mutex, and its control point. -/
structure PState where
  rt : RTState
  lockHeld : Bool
  phase : Phase
deriving Repr, DecidableEq

/-- Small-step transitions of the producer loop: at the loop head (lock
held) either observe `stop` and leave, or run the locked prefix, release
the mutex and start the blocking read at the current `head_offset`; the
read returns some result while the mutex is free; then the mutex is
re-acquired and the locked classification runs. -/
inductive PStep : PState → PState → Prop where
  | exitLoop (s : RTState) (h : s.stop = true) :
      PStep ⟨s, true, .loopHead⟩ ⟨s, false, .exited⟩
  | beginRead (s : RTState) (h : s.stop = false) :
      PStep ⟨s, true, .loopHead⟩
        ⟨(prePublish s).1, false, .reading s.head_offset (prePublish s).2⟩
  | readReturns (s : RTState) (off next : Nat) (r : ReadResult) :
      PStep ⟨s, false, .reading off next⟩ ⟨s, false, .classifying r next⟩
  | relockClassify (s : RTState) (r : ReadResult) (next : Nat) :
      PStep ⟨s, false, .classifying r next⟩
        ⟨(classifyRead s next r).1, true, .loopHead⟩

/-- Producer configurations reachable from thread start; the thread takes
the mutex before first testing `stop`. -/
inductive PReach (pb fr sc : Nat) : PState → Prop where
  | init (junk : List Nat) (h : junk.length = pb * sc) :
      PReach pb fr sc ⟨startState pb fr sc junk, true, .loopHead⟩
  | step (p q : PState) (hp : PReach pb fr sc p) (hs : PStep p q) :
      PReach pb fr sc q

/-- C9: the producer holds the mutex exactly at the loop head — the
offset/flag bookkeeping point — and in particular never while the blocking
device read is in flight: in every reachable producer configuration whose
control point is the read, the lock is not held. -/
theorem C9_read_without_lock (pb fr sc : Nat) (p : PState)
    (hre : PReach pb fr sc p) :
    (p.lockHeld = true ↔ p.phase = .loopHead) ∧
    (∀ off next, p.phase = .reading off next → p.lockHeld = false) := by
  induction hre with
  | init junk h =>
    refine ⟨by simp, ?_⟩
    intro off next hph
    cases hph
  | step p q hp hs ih =>
    cases hs with
    | exitLoop s h =>
      refine ⟨by simp, fun off next hph => rfl⟩
    | beginRead s h =>
      refine ⟨by simp, fun off next hph => rfl⟩
    | readReturns s off next r =>
      refine ⟨by simp, fun o n hph => rfl⟩
    | relockClassify s r next =>
      refine ⟨by simp, ?_⟩
      intro off n hph
      cases hph

/-- Witness for C9: the configuration actually performing the blocking
read, one `beginRead` step after start — the lock is confirmed free. -/
theorem C9_read_without_lock_witness :
    ((⟨(prePublish (startState 1 1 2 [0, 0])).1, false,
        .reading (startState 1 1 2 [0, 0]).head_offset
          (prePublish (startState 1 1 2 [0, 0])).2⟩ : PState).lockHeld = true ↔
      (⟨(prePublish (startState 1 1 2 [0, 0])).1, false,
        .reading (startState 1 1 2 [0, 0]).head_offset
          (prePublish (startState 1 1 2 [0, 0])).2⟩ : PState).phase = .loopHead) ∧
    (∀ off next,
      (⟨(prePublish (startState 1 1 2 [0, 0])).1, false,
        .reading (startState 1 1 2 [0, 0]).head_offset
          (prePublish (startState 1 1 2 [0, 0])).2⟩ : PState).phase = .reading off next →
      (⟨(prePublish (startState 1 1 2 [0, 0])).1, false,
        .reading (startState 1 1 2 [0, 0]).head_offset
          (prePublish (startState 1 1 2 [0, 0])).2⟩ : PState).lockHeld = false) :=
  C9_read_without_lock 1 1 2 _
    (PReach.step _ _ (PReach.init [0, 0] rfl)
      (PStep.beginRead (startState 1 1 2 [0, 0]) rfl))

/-! Start-up initialisation.  The code `memset`s the state struct — offsets
and flags — to zero, but allocates the backing buffer with `malloc`, whose
contents it never initialises. -/

/-- C8 (amended): on the successful path, `reader_thread_start` zeroes both
offsets and all three flags before the capture thread can run, and the
backing buffer has exactly `period_bytes × slot_count` bytes; its contents
are the `malloc` block as returned, not zeroed by the code. -/
theorem C8_start_init (a b t : Bool) (junk : List Nat) (pb fr sc : Nat)
    (ha : a = true) (hb : b = true) (ht : t = true)
    (hlen : junk.length = pb * sc) :
    reader_thread_start a b t junk pb fr sc = some (startState pb fr sc junk) ∧
    (startState pb fr sc junk).head_offset = 0 ∧
    (startState pb fr sc junk).tail_offset = 0 ∧
    (startState pb fr sc junk).stop = false ∧
    (startState pb fr sc junk).overrun = false ∧
    (startState pb fr sc junk).error = false ∧
    (startState pb fr sc junk).buf.length = pb * sc ∧
    (startState pb fr sc junk).buf = junk := by
  subst ha hb ht
  exact ⟨rfl, rfl, rfl, rfl, rfl, rfl, hlen, rfl⟩

/-- Witness for C8 (amended) at concrete parameters. -/
theorem C8_start_init_witness :
    reader_thread_start true true true [7, 0] 1 1 2 = some (startState 1 1 2 [7, 0]) ∧
    (startState 1 1 2 [7, 0]).head_offset = 0 ∧
    (startState 1 1 2 [7, 0]).tail_offset = 0 ∧
    (startState 1 1 2 [7, 0]).stop = false ∧
    (startState 1 1 2 [7, 0]).overrun = false ∧
    (startState 1 1 2 [7, 0]).error = false ∧
    (startState 1 1 2 [7, 0]).buf.length = 1 * 2 ∧
    (startState 1 1 2 [7, 0]).buf = [7, 0] :=
  C8_start_init true true true [7, 0] 1 1 2 rfl rfl rfl rfl

/-- Counterexample to C8 as stated: a successful start whose `malloc`
block is `[7, 0]` leaves the backing buffer's first byte `7`, refuting
"every byte of the backing buffer is zero" — the code `memset`s only the
state struct and never zeroes the buffer. -/
theorem C8_start_buffer_not_zeroed :
    reader_thread_start true true true [7, 0] 1 1 2 = some (startState 1 1 2 [7, 0]) ∧
    ¬ (∀ i, i < (startState 1 1 2 [7, 0]).buf.length →
        (startState 1 1 2 [7, 0]).buf.getD i 0 = 0) := by
  refine ⟨rfl, ?_⟩
  intro hall
  exact absurd (hall 0 (by decide)) (by decide)
